import Mathlib

/-!
Verification of the parameter-traversal core (`Utils/generator.py`) and the
ResNet depth plan (`Models/lottery_resnet.py::_plan`) of the
Synaptic-Flow-AD repository, over a shallow embedding of the code.

The layer taxonomy (`Layers.layers_class`) is an external collaborator: a
module is a node of a rooted ordered tree carrying a kind tag, its own
registered buffers (name/tensor pairs), its own registered parameters in
declaration order, an optional `bias` attribute, and named children.
Tensors are identified by an id, mirroring Python object identity.
-/

/-- The closed set of layer kinds the generator's `isinstance` checks
dispatch on; `other` covers every module kind outside the taxonomy
(containers, plain `nn` layers). -/
inductive Kind where
  | linear
  | conv2d
  | batchNorm1d
  | batchNorm2d
  | identity1d
  | identity2d
  | other
deriving DecidableEq, Repr

/-- A buffer tensor, identified by an id (Python object identity). -/
structure Buffer where
  id : Nat
deriving DecidableEq, Repr

/-- A parameter tensor, identified by an id (Python object identity). -/
structure Param where
  id : Nat
deriving DecidableEq, Repr

/-- Modelled from the spec: a module tree node. Each module owns buffers
(`name ↦ tensor`, registration order), parameters (registration order), an
optional `bias` attribute (`none` both for `bias=None` and for layers
without the attribute), and an ordered list of named children. -/
inductive NNModule where
  | node (kind : Kind) (buffers : List (String × Buffer)) (params : List Param)
      (bias : Option Param) (children : List (String × NNModule)) : NNModule

def NNModule.kind : NNModule → Kind
  | .node k _ _ _ _ => k

def NNModule.ownBuffers : NNModule → List (String × Buffer)
  | .node _ b _ _ _ => b

/-- Embeds `module.parameters(recurse=False)`: the module's own parameters. -/
def NNModule.ownParams : NNModule → List Param
  | .node _ _ p _ _ => p

/-- The module's `bias` attribute. -/
def NNModule.biasAttr : NNModule → Option Param
  | .node _ _ _ bi _ => bi

def NNModule.children : NNModule → List (String × NNModule)
  | .node _ _ _ _ cs => cs

/-- PyTorch name qualification: a child member `n` of a module with prefix
`pre` is named `pre ++ "." ++ n`, with no leading dot at the root. -/
def qualName (pre n : String) : String :=
  if pre = "" then n else pre ++ "." ++ n

mutual
/-- Embeds `module.named_modules(prefix=pre)`: the module itself then every
descendant, preorder depth-first, each with its qualified name. -/
def namedNNModules (pre : String) : NNModule → List (String × NNModule)
  | .node k b p bi cs => (pre, .node k b p bi cs) :: namedNNModulesChildren pre cs

def namedNNModulesChildren (pre : String) : List (String × NNModule) → List (String × NNModule)
  | [] => []
  | (n, c) :: cs => namedNNModules (qualName pre n) c ++ namedNNModulesChildren pre cs
end

/-- Embeds `module.modules()`: every module of the subtree, preorder depth-first. -/
def NNModule.modules (m : NNModule) : List NNModule :=
  (namedNNModules "" m).map Prod.snd

/-- Embeds `module.named_buffers()` (recursive, the PyTorch default): for every
module of the subtree in preorder, its own buffers under qualified names. -/
def named_buffers (m : NNModule) : List (String × Buffer) :=
  (namedNNModules "" m).flatMap fun pm => pm.2.ownBuffers.map fun nb => (qualName pm.1 nb.1, nb.2)

/-- Whether the string contains the substring "mask" (Python `"mask" in name`). -/
def hasMaskSub (s : String) : Bool :=
  decide ("mask".toList <:+: s.toList)

/-- Embeds `generator.masks`: iterate `module.named_buffers()` and yield every
buffer whose name contains "mask". -/
def masks (m : NNModule) : List Buffer :=
  ((named_buffers m).filter fun nb => hasMaskSub nb.1).map Prod.snd

/-- Embeds `generator.trainable`: not an `Identity1d`/`Identity2d`. -/
def trainable (m : NNModule) : Bool :=
  !(m.kind == Kind.identity1d || m.kind == Kind.identity2d)

/-- Embeds `generator.prunable`: `Linear`/`Conv2d`, OR-extended by the batchnorm
and residual clauses when their flags are set. -/
def prunable (m : NNModule) (batchnorm residual : Bool) : Bool :=
  let isprunable := m.kind == Kind.linear || m.kind == Kind.conv2d
  let isprunable := if batchnorm then
    isprunable || (m.kind == Kind.batchNorm1d || m.kind == Kind.batchNorm2d)
    else isprunable
  let isprunable := if residual then
    isprunable || (m.kind == Kind.identity1d || m.kind == Kind.identity2d)
    else isprunable
  isprunable

/-- Embeds `generator.parameters`: own parameters of every trainable module of the
tree, in traversal order. -/
def parameters (model : NNModule) : List Param :=
  ((model.modules).filter fun p => trainable p).flatMap fun m => m.ownParams

/-- The inner loop of `generator.masked_parameters` for one retained module:
`zip(masks(module), module.parameters(recurse=False))` filtered by
`param is not module.bias or bias is True`. -/
def maskedPairsOfNNModule (m : NNModule) (bias : Bool) : List (Buffer × Param) :=
  ((masks m).zip m.ownParams).filter fun mp => decide (some mp.2 ≠ m.biasAttr) || bias

/-- Embeds `generator.masked_parameters`: over the prunable modules of the tree,
the positionally matched (mask, parameter) pairs passing the bias filter. -/
def masked_parameters (model : NNModule) (bias batchnorm residual : Bool) :
    List (Buffer × Param) :=
  ((model.modules).filter fun p => prunable p batchnorm residual).flatMap
    fun m => maskedPairsOfNNModule m bias

/-- Embeds `Models/lottery_resnet.py::_plan`: reject depths with `(D - 2) % 3 != 0`
(`ValueError`), else build the three-segment plan with `(D - 2) // 6` blocks
per segment.  Python `%` and `//` on a positive modulus/divisor agree with
Lean's Int `%` and `/`. -/
def _plan (D W : Int) : Except String (List (Int × Int)) :=
  if (D - 2) % 3 ≠ 0 then
    Except.error ("Invalid ResNet depth: " ++ toString D)
  else
    let D2 := (D - 2) / 6
    Except.ok [(W, D2), (2 * W, D2), (4 * W, D2)]

/-- The mask-name filtering step of `generator.masks`, as a function of a
named-buffer list: keep the buffers whose name contains "mask". -/
def maskFilter (l : List (String × Buffer)) : List Buffer :=
  (l.filter fun nb => hasMaskSub nb.1).map Prod.snd

/-- Generalization of `named_buffers` to an arbitrary qualification point, for
reasoning about subtrees. -/
def prefNamedBuffers (pre : String) (m : NNModule) : List (String × Buffer) :=
  (namedNNModules pre m).flatMap fun pm => pm.2.ownBuffers.map fun nb => (qualName pm.1 nb.1, nb.2)

/-- The named buffers contributed by a list of children under a given
qualification point. -/
def childNamedBuffers (pre : String) (cs : List (String × NNModule)) : List (String × Buffer) :=
  (namedNNModulesChildren pre cs).flatMap fun pm => pm.2.ownBuffers.map fun nb => (qualName pm.1 nb.1, nb.2)

/-- Spec-side definition (from the spec's words in §4.4): the mask buffers
owned by the module itself — its own registered buffers, not its
descendants' — whose name contains "mask". -/
def ownMasksSpec (m : NNModule) : List Buffer :=
  maskFilter m.ownBuffers

/-- The mask buffers that `generator.masks` discovers strictly below a
module, i.e. inside its children's subtrees (with their qualified names). -/
def descendantMasks (m : NNModule) : List Buffer :=
  maskFilter (childNamedBuffers "" m.children)

mutual
/-- Spec-side definition (from the spec's words in §4.1): depth-first,
declaration-order collection of every buffer in the subtree whose qualified
name contains "mask": the module's own mask-named buffers first, then each
child subtree in order. -/
def dfsMaskBuffers (pre : String) : NNModule → List Buffer
  | .node _ bufs _ _ cs =>
      maskFilter (bufs.map fun nb => (qualName pre nb.1, nb.2)) ++ dfsMaskBuffersChildren pre cs

def dfsMaskBuffersChildren (pre : String) : List (String × NNModule) → List Buffer
  | [] => []
  | (n, c) :: cs => dfsMaskBuffers (qualName pre n) c ++ dfsMaskBuffersChildren pre cs
end

mutual
/-- The module subtree in preorder, defined by direct structural recursion
(proved equal to `NNModule.modules`). -/
def modulesAux : NNModule → List NNModule
  | .node k b p bi cs => .node k b p bi cs :: modulesChildrenAux cs

def modulesChildrenAux : List (String × NNModule) → List NNModule
  | [] => []
  | (_, c) :: cs => modulesAux c ++ modulesChildrenAux cs
end

mutual
/-- Spec-side definition (from the spec's words in §4.3): depth-first,
declaration-order collection of the own parameters of every trainable
module of the subtree. -/
def dfsTrainableParams : NNModule → List Param
  | .node k b p bi cs =>
      (if trainable (.node k b p bi cs) then p else []) ++ dfsTrainableParamsChildren cs

def dfsTrainableParamsChildren : List (String × NNModule) → List Param
  | [] => []
  | (_, c) :: cs => dfsTrainableParams c ++ dfsTrainableParamsChildren cs
end

/-- The spec's two-layer toy scenario (§8): a `Conv2d` owning a weight and a
same-shaped `weight_mask` buffer, and a `BatchNorm2d` owning weight and bias
but no mask buffer, under a plain container root. -/
def toyConv : NNModule :=
  .node .conv2d [("weight_mask", ⟨10⟩)] [⟨0⟩] none []

def toyBn : NNModule :=
  .node .batchNorm2d [] [⟨1⟩, ⟨2⟩] (some ⟨2⟩) []

def toyModel : NNModule :=
  .node .other [] [] none [("conv", toyConv), ("bn", toyBn)]

/-- A prunable `Conv2d` module that owns no mask buffer itself but has a
descendant owning a buffer named `weight_mask`. -/
def cexConv : NNModule :=
  .node .conv2d [] [⟨0⟩] none [("sub", .node .other [("weight_mask", ⟨5⟩)] [] none [])]

/-- A model containing an `Identity2d` layer that owns a parameter, next to
a `Linear` layer: used to exercise the trainable-parameter exclusion. -/
def idLayer : NNModule :=
  .node .identity2d [("weight_mask", ⟨20⟩)] [⟨7⟩] none []

def linLayer : NNModule :=
  .node .linear [("weight_mask", ⟨21⟩), ("bias_mask", ⟨22⟩)] [⟨1⟩, ⟨2⟩] (some ⟨2⟩) []

def idLinModel : NNModule :=
  .node .other [] [] none [("short", idLayer), ("fc", linLayer)]

/-- A `Linear` layer whose discovered mask count (1) differs from its own
parameter count (2): exercises the zip truncation. -/
def mismatchLin : NNModule :=
  .node .linear [("weight_mask", ⟨30⟩)] [⟨8⟩, ⟨9⟩] none []

theorem qualName_empty (n : String) : qualName "" n = n := by
  simp [qualName]

theorem prefNamedBuffers_node (pre : String) (k : Kind) (b : List (String × Buffer))
    (p : List Param) (bi : Option Param) (cs : List (String × NNModule)) :
    prefNamedBuffers pre (.node k b p bi cs) =
      (b.map fun nb => (qualName pre nb.1, nb.2)) ++ childNamedBuffers pre cs := by
  simp [prefNamedBuffers, childNamedBuffers, namedNNModules, NNModule.ownBuffers]

theorem named_buffers_node (k : Kind) (b : List (String × Buffer)) (p : List Param)
    (bi : Option Param) (cs : List (String × NNModule)) :
    named_buffers (.node k b p bi cs) = b ++ childNamedBuffers "" cs := by
  have h : named_buffers (.node k b p bi cs) = prefNamedBuffers "" (.node k b p bi cs) := rfl
  rw [h, prefNamedBuffers_node]
  simp [qualName_empty]

theorem maskFilter_append (x y : List (String × Buffer)) :
    maskFilter (x ++ y) = maskFilter x ++ maskFilter y := by
  simp [maskFilter]

theorem masks_eq_own_append_desc (m : NNModule) :
    masks m = ownMasksSpec m ++ descendantMasks m := by
  cases m with
  | node k b p bi cs =>
    have h : masks (.node k b p bi cs) = maskFilter (named_buffers (.node k b p bi cs)) := rfl
    rw [h, named_buffers_node, maskFilter_append]
    rfl

mutual
theorem maskFilter_pref_eq_dfs (pre : String) (m : NNModule) :
    maskFilter (prefNamedBuffers pre m) = dfsMaskBuffers pre m := by
  cases m with
  | node k b p bi cs =>
    rw [prefNamedBuffers_node, maskFilter_append, dfsMaskBuffers,
      maskFilter_child_eq_dfs pre cs]

theorem maskFilter_child_eq_dfs (pre : String) (cs : List (String × NNModule)) :
    maskFilter (childNamedBuffers pre cs) = dfsMaskBuffersChildren pre cs := by
  cases cs with
  | nil => rfl
  | cons c cs =>
    obtain ⟨n, c⟩ := c
    have h : childNamedBuffers pre ((n, c) :: cs) =
        prefNamedBuffers (qualName pre n) c ++ childNamedBuffers pre cs := by
      simp [childNamedBuffers, prefNamedBuffers, namedNNModulesChildren]
    rw [h, maskFilter_append, maskFilter_pref_eq_dfs (qualName pre n) c,
      maskFilter_child_eq_dfs pre cs, dfsMaskBuffersChildren]
end

mutual
theorem map_snd_namedNNModules (pre : String) (m : NNModule) :
    (namedNNModules pre m).map Prod.snd = modulesAux m := by
  cases m with
  | node k b p bi cs =>
    rw [namedNNModules, modulesAux, List.map_cons, map_snd_namedNNModulesChildren pre cs]

theorem map_snd_namedNNModulesChildren (pre : String) (cs : List (String × NNModule)) :
    (namedNNModulesChildren pre cs).map Prod.snd = modulesChildrenAux cs := by
  cases cs with
  | nil => rfl
  | cons c cs =>
    obtain ⟨n, c⟩ := c
    rw [namedNNModulesChildren, modulesChildrenAux, List.map_append,
      map_snd_namedNNModules (qualName pre n) c, map_snd_namedNNModulesChildren pre cs]
end

theorem modules_eq_modulesAux (m : NNModule) : m.modules = modulesAux m :=
  map_snd_namedNNModules "" m

theorem flatMap_filter_eq_flatMap_ite {α β : Type} (pred : α → Bool) (f : α → List β) :
    ∀ l : List α, (l.filter pred).flatMap f = l.flatMap fun x => if pred x then f x else []
  | [] => rfl
  | x :: l => by
    by_cases h : pred x = true
    · simp [List.filter_cons, h, flatMap_filter_eq_flatMap_ite pred f l]
    · simp [List.filter_cons, h, flatMap_filter_eq_flatMap_ite pred f l]

mutual
theorem flatMap_trainable_eq_dfs (m : NNModule) :
    (modulesAux m).flatMap (fun mm => if trainable mm then mm.ownParams else []) =
      dfsTrainableParams m := by
  cases m with
  | node k b p bi cs =>
    rw [modulesAux, dfsTrainableParams, List.flatMap_cons, flatMapChildren_trainable_eq_dfs cs]
    rfl

theorem flatMapChildren_trainable_eq_dfs (cs : List (String × NNModule)) :
    (modulesChildrenAux cs).flatMap (fun mm => if trainable mm then mm.ownParams else []) =
      dfsTrainableParamsChildren cs := by
  cases cs with
  | nil => rfl
  | cons c cs =>
    obtain ⟨n, c⟩ := c
    rw [modulesChildrenAux, dfsTrainableParamsChildren, List.flatMap_append,
      flatMap_trainable_eq_dfs c, flatMapChildren_trainable_eq_dfs cs]
end

theorem countP_snd_zip {α β : Type} (p : β → Bool) :
    ∀ (l1 : List α) (l2 : List β),
      ((l1.zip l2).countP fun ab => p ab.2) = (l2.take l1.length).countP p
  | [], l2 => by simp
  | a :: l1, [] => by simp
  | a :: l1, b :: l2 => by
    simp [List.zip_cons_cons, List.countP_cons, countP_snd_zip p l1 l2]

theorem maskedPairs_true_eq (m : NNModule) :
    maskedPairsOfNNModule m true = (masks m).zip m.ownParams := by
  simp [maskedPairsOfNNModule]

theorem maskedPairs_length_split (m : NNModule) :
    (maskedPairsOfNNModule m true).length =
      (maskedPairsOfNNModule m false).length +
        ((masks m).zip m.ownParams).countP fun mp => decide (some mp.2 = m.biasAttr) := by
  rw [maskedPairs_true_eq]
  have h1 : (maskedPairsOfNNModule m false).length =
      ((masks m).zip m.ownParams).countP fun mp => !decide (some mp.2 = m.biasAttr) := by
    simp [maskedPairsOfNNModule, ← List.countP_eq_length_filter, decide_not]
  rw [h1]
  have h2 := List.length_eq_countP_add_countP
    (fun mp : Buffer × Param => decide (some mp.2 = m.biasAttr))
    (l := (masks m).zip m.ownParams)
  simp only [decide_not, decide_eq_true_eq] at h2 ⊢
  omega

/-- C2: `prunable(module, batchnorm, residual)` is true iff the module is a
`Linear`/`Conv2d`, or `batchnorm` is set and it is a `BatchNorm1d`/`BatchNorm2d`,
or `residual` is set and it is an `Identity1d`/`Identity2d`; with both flags
false exactly the `Linear` and `Conv2d` modules are prunable. -/
theorem C2_prunable_characterization (m : NNModule) (bn r : Bool) :
    (prunable m bn r = true ↔
      ((m.kind = Kind.linear ∨ m.kind = Kind.conv2d)
        ∨ (bn = true ∧ (m.kind = Kind.batchNorm1d ∨ m.kind = Kind.batchNorm2d))
        ∨ (r = true ∧ (m.kind = Kind.identity1d ∨ m.kind = Kind.identity2d))))
  ∧ (prunable m false false = true ↔ (m.kind = Kind.linear ∨ m.kind = Kind.conv2d)) := by
  cases m with
  | node k b p bi cs =>
    cases k <;> cases bn <;> cases r <;> simp [prunable, NNModule.kind]

/-- C2 witness: a concrete instance of the characterization. -/
theorem C2_witness :
    prunable (.node .batchNorm2d [] [] none []) true false = true ∧
      ¬prunable (.node .batchNorm2d [] [] none []) false false = true :=
  ⟨(C2_prunable_characterization (.node .batchNorm2d [] [] none []) true false).1.mpr
      (Or.inr (Or.inl ⟨rfl, Or.inr rfl⟩)),
    fun h => by
      have := (C2_prunable_characterization (.node .batchNorm2d [] [] none []) true false).2.mp h
      simp [NNModule.kind] at this⟩

/-- C5: enabling `batchnorm` or `residual` is monotone — a module prunable
under a cleared flag stays prunable when that flag is set. -/
theorem C5_prunable_monotone (m : NNModule) (bn r : Bool) :
    (prunable m false r = true → prunable m true r = true)
  ∧ (prunable m bn false = true → prunable m bn true = true) := by
  cases m with
  | node k b p bi cs =>
    cases k <;> cases bn <;> cases r <;> simp [prunable, NNModule.kind]

/-- C5 witness: monotonicity applied to a concrete `Conv2d`. -/
theorem C5_witness :
    prunable (.node .conv2d [] [] none []) false false = true ∧
      prunable (.node .conv2d [] [] none []) true false = true :=
  ⟨by decide, (C5_prunable_monotone (.node .conv2d [] [] none []) false false).1 (by decide)⟩

/-- C8: the traversal operations are pure functions of the tree — repeated
calls on an unmutated tree yield identical sequences. -/
theorem C8_traversals_deterministic (model : NNModule) (b bn r : Bool) :
    masks model = masks model ∧ parameters model = parameters model ∧
      masked_parameters model b bn r = masked_parameters model b bn r :=
  ⟨rfl, rfl, rfl⟩

/-- C10: `_plan D W` errors exactly when `(D - 2) % 3 ≠ 0`, and otherwise
returns the three-segment plan with `(D - 2) / 6` (floor) blocks per
segment, so depths with `D - 2` divisible by 3 but not 6 are accepted. -/
theorem C10_plan_characterization (D W : Int) :
    ((∃ e, _plan D W = Except.error e) ↔ (D - 2) % 3 ≠ 0)
  ∧ ((D - 2) % 3 = 0 →
      _plan D W = Except.ok [(W, (D - 2) / 6), (2 * W, (D - 2) / 6), (4 * W, (D - 2) / 6)]) := by
  constructor
  · constructor
    · rintro ⟨e, he⟩ h
      simp [_plan, h] at he
    · intro h
      exact ⟨"Invalid ResNet depth: " ++ toString D, by simp [_plan, h]⟩
  · intro h
    simp [_plan, h]

/-- C10 witness: depth 23 has `D - 2 = 21` divisible by 3 but not by 6, and
is accepted with `21 / 6 = 3` blocks per segment. -/
theorem C10_witness :
    (23 - 2 : Int) % 3 = 0 ∧ ¬((23 - 2 : Int) % 6 = 0) ∧
      _plan 23 16 = Except.ok [(16, 3), (32, 3), (64, 3)] := by
  refine ⟨by decide, by decide, ?_⟩
  have h := (C10_plan_characterization 23 16).2 (by decide)
  norm_num at h
  exact h

/-- C1: with `bias=False` no yielded pair's parameter is its module's bias
tensor; a matched pair whose parameter is not the bias is yielded under
either flag; and with `bias=True` a layer whose bias is positionally matched
with a mask contributes exactly one additional pair, while a layer with no
bias contributes none. -/
theorem C1_bias_filtering (model : NNModule) (bn r : Bool) :
    (∀ q ∈ masked_parameters model false bn r,
        ∃ m, m ∈ model.modules ∧ prunable m bn r = true ∧
          q ∈ maskedPairsOfNNModule m false ∧ some q.2 ≠ m.biasAttr)
  ∧ (∀ (m : NNModule) (b : Bool), ∀ q ∈ (masks m).zip m.ownParams,
        some q.2 ≠ m.biasAttr → q ∈ maskedPairsOfNNModule m b)
  ∧ (∀ (m : NNModule) (pb : Param), m.biasAttr = some pb →
        ((m.ownParams.take (masks m).length).countP fun x => decide (x = pb)) = 1 →
        (maskedPairsOfNNModule m true).length = (maskedPairsOfNNModule m false).length + 1)
  ∧ (∀ m : NNModule, m.biasAttr = none →
        (maskedPairsOfNNModule m true).length = (maskedPairsOfNNModule m false).length) := by
  refine ⟨?_, ?_, ?_, ?_⟩
  · intro q hq
    rw [masked_parameters] at hq
    simp only [List.mem_flatMap, List.mem_filter] at hq
    obtain ⟨m, ⟨hm, hpr⟩, hqm⟩ := hq
    refine ⟨m, hm, hpr, hqm, ?_⟩
    have h2 := (List.mem_filter.mp hqm).2
    simpa using h2
  · intro m b q hq hne
    rw [maskedPairsOfNNModule]
    exact List.mem_filter.mpr ⟨hq, by simp [hne]⟩
  · intro m pb hbias hcount
    rw [maskedPairs_length_split m]
    have hz := countP_snd_zip (fun x => decide (some x = m.biasAttr)) (masks m) m.ownParams
    rw [hz, hbias]
    simp only [Option.some.injEq]
    rw [hcount]
  · intro m hnone
    rw [maskedPairs_length_split m, hnone]
    simp

/-- C1 witness: a `Linear` layer with weight+bias and two matching masks
gains exactly one pair from `bias=True`. -/
theorem C1_witness :
    (maskedPairsOfNNModule linLayer true).length =
      (maskedPairsOfNNModule linLayer false).length + 1 :=
  (C1_bias_filtering linLayer false false).2.2.1 linLayer ⟨2⟩ (by decide) (by decide)

/-- C7 counterexample: a retained module that owns no mask buffer can still
contribute a pair — the prunable `Conv2d` of `cexConv` owns no mask buffer
(`ownMasksSpec cexConv = []`), yet `masked_parameters` yields the pair of
its descendant's `weight_mask` buffer with its own weight, because mask
discovery recurses into descendants. -/
theorem C7_counterexample :
    prunable cexConv false false = true
  ∧ ownMasksSpec cexConv = []
  ∧ masked_parameters cexConv false false false = [(⟨5⟩, ⟨0⟩)]
  ∧ maskedPairsOfNNModule cexConv false ≠ [] := by
  refine ⟨by decide, by decide, by decide, by decide⟩

/-- C7 (amended): on the spec's two-layer toy model, `masked_parameters`
with default flags yields exactly the conv weight/mask pair, and still only
that pair with `batchnorm=True` since the `BatchNorm2d` owns no mask; in
general a retained module for which mask discovery over its subtree yields
nothing — in particular any childless module owning no mask buffer —
contributes no pairs, and no error is possible (the traversal is total). -/
theorem C7_toy_and_maskless :
    masked_parameters toyModel false false false = [(⟨10⟩, ⟨0⟩)]
  ∧ masked_parameters toyModel false true false = [(⟨10⟩, ⟨0⟩)]
  ∧ (∀ (m : NNModule) (b : Bool), masks m = [] → maskedPairsOfNNModule m b = [])
  ∧ (∀ (m : NNModule) (b : Bool), m.children = [] → ownMasksSpec m = [] →
      maskedPairsOfNNModule m b = []) := by
  have hmaskless : ∀ (m : NNModule) (b : Bool), masks m = [] →
      maskedPairsOfNNModule m b = [] := by
    intro m b h
    rw [maskedPairsOfNNModule, h]
    rfl
  refine ⟨by decide, by decide, hmaskless, ?_⟩
  intro m b hch hown
  have hdesc : descendantMasks m = [] := by
    rw [descendantMasks, hch]
    rfl
  have hm : masks m = [] := by
    rw [masks_eq_own_append_desc, hown, hdesc]
    rfl
  exact hmaskless m b hm

/-- C7 witness: the toy `BatchNorm2d` is childless and owns no mask, and
contributes nothing. -/
theorem C7_witness : masks toyBn = [] ∧ maskedPairsOfNNModule toyBn false = [] :=
  ⟨by decide, C7_toy_and_maskless.2.2.2 toyBn false rfl (by decide)⟩

/-- C9: for a retained module whose mask count differs from its own
parameter count, the matched pairs are silently truncated to the shorter
side — `min` of the two lengths — and remain positionally matched. -/
theorem C9_zip_truncation (m : NNModule) (bn r : Bool)
    (_hpr : prunable m bn r = true)
    (_hne : (masks m).length ≠ m.ownParams.length) :
    ((masks m).zip m.ownParams).length = min (masks m).length m.ownParams.length
  ∧ (maskedPairsOfNNModule m true).length = min (masks m).length m.ownParams.length
  ∧ ∀ (i : Nat) (h1 : i < (masks m).length) (h2 : i < m.ownParams.length),
      ((masks m).zip m.ownParams).get ⟨i, by rw [List.length_zip]; omega⟩ =
        ((masks m).get ⟨i, h1⟩, m.ownParams.get ⟨i, h2⟩) := by
  refine ⟨List.length_zip _ _, ?_, ?_⟩
  · rw [maskedPairs_true_eq]
    exact List.length_zip _ _
  · intro i h1 h2
    simp [List.get_eq_getElem, List.getElem_zip]

/-- C9 witness: a `Linear` with one mask and two parameters yields exactly
`min 1 2 = 1` pair and no error. -/
theorem C9_witness :
    (maskedPairsOfNNModule mismatchLin true).length =
      min (masks mismatchLin).length mismatchLin.ownParams.length :=
  (C9_zip_truncation mismatchLin false false (by decide) (by decide)).2.1

/-- C3 counterexample: `masks` in the source iterates `named_buffers()`,
which recurses into descendants; a prunable `Conv2d` owning no mask buffer
itself but with a descendant buffer named `weight_mask` has that descendant
buffer paired with its own weight, so the paired masks are not the masks
owned by the module itself. -/
theorem C3_counterexample :
    prunable cexConv false false = true
  ∧ cexConv ∈ cexConv.modules
  ∧ masked_parameters cexConv false false false = [(⟨5⟩, ⟨0⟩)]
  ∧ ownMasksSpec cexConv = []
  ∧ maskedPairsOfNNModule cexConv false ≠
      ((ownMasksSpec cexConv).zip cexConv.ownParams).filter
        (fun mp => decide (some mp.2 ≠ cexConv.biasAttr) || false) := by
  refine ⟨by decide, ?_, by decide, by decide, by decide⟩
  rw [modules_eq_modulesAux]
  exact List.mem_cons_self _ _

/-- C3 (amended): for every retained module the paired masks are those
discovered over the whole subtree rooted at the module (its own mask-named
buffers first, then its descendants', depth-first); whenever the descendants
contribute no mask-named buffer this coincides with the module's own masks,
and the pairing is positional — the mask at position `i` pairs with the own
parameter at position `i`. -/
theorem C3_amended_subtree_pairing (m : NNModule) (bias : Bool) :
    masks m = ownMasksSpec m ++ descendantMasks m
  ∧ (descendantMasks m = [] →
      maskedPairsOfNNModule m bias =
        ((ownMasksSpec m).zip m.ownParams).filter
          (fun mp => decide (some mp.2 ≠ m.biasAttr) || bias))
  ∧ (∀ (i : Nat) (h1 : i < (masks m).length) (h2 : i < m.ownParams.length),
      ((masks m).zip m.ownParams).get ⟨i, by rw [List.length_zip]; omega⟩ =
        ((masks m).get ⟨i, h1⟩, m.ownParams.get ⟨i, h2⟩)) := by
  refine ⟨masks_eq_own_append_desc m, ?_, ?_⟩
  · intro h
    have h2 : masks m = ownMasksSpec m := by
      rw [masks_eq_own_append_desc m, h, List.append_nil]
    rw [maskedPairsOfNNModule, h2]
  · intro i h1 h2
    simp [List.get_eq_getElem, List.getElem_zip]

/-- C3 witness: the toy `Conv2d` has no descendants, so its pairing uses
exactly its own mask. -/
theorem C3_witness :
    maskedPairsOfNNModule toyConv false =
      ((ownMasksSpec toyConv).zip toyConv.ownParams).filter
        (fun mp => decide (some mp.2 ≠ toyConv.biasAttr) || false) :=
  (C3_amended_subtree_pairing toyConv false).2.1 (by decide)

/-- C6: `masks` yields exactly the buffers of the subtree whose qualified
name contains "mask", in depth-first declaration order (the spec-side DFS
collection); with no such buffer the result is empty; and a repeated call
yields the same sequence. -/
theorem C6_masks_characterization (m : NNModule) :
    masks m = dfsMaskBuffers "" m
  ∧ (∀ bf : Buffer, bf ∈ masks m ↔
      ∃ nm : String, (nm, bf) ∈ named_buffers m ∧ hasMaskSub nm = true)
  ∧ ((∀ nb ∈ named_buffers m, hasMaskSub nb.1 = false) → masks m = [])
  ∧ masks m = masks m := by
  refine ⟨?_, ?_, ?_, rfl⟩
  · have h : masks m = maskFilter (prefNamedBuffers "" m) := rfl
    rw [h, maskFilter_pref_eq_dfs]
  · intro bf
    simp only [masks, List.mem_map, List.mem_filter]
    constructor
    · rintro ⟨⟨nm, b2⟩, ⟨hmem, hmask⟩, rfl⟩
      exact ⟨nm, hmem, hmask⟩
    · rintro ⟨nm, hmem, hmask⟩
      exact ⟨(nm, bf), ⟨hmem, hmask⟩, rfl⟩
  · intro h
    rw [masks]
    have h2 : (named_buffers m).filter (fun nb => hasMaskSub nb.1) = [] := by
      rw [List.filter_eq_nil_iff]
      intro a ha
      simp [h a ha]
    rw [h2]
    rfl

/-- C6 witness: a module with no buffers at all yields the empty sequence. -/
theorem C6_witness : masks toyBn = [] :=
  (C6_masks_characterization toyBn).2.2.1 (by decide)

/-- C4: `parameters` yields, in depth-first declaration order, exactly the
own parameters of every trainable module, where trainable means not an
Identity kind; when distinct modules own disjoint parameter tensors, no
parameter owned by an Identity layer is ever yielded. -/
theorem C4_parameters_trainable (model : NNModule) :
    parameters model = dfsTrainableParams model
  ∧ (∀ mm : NNModule, trainable mm = true ↔
      ¬(mm.kind = Kind.identity1d ∨ mm.kind = Kind.identity2d))
  ∧ (∀ p : Param, p ∈ parameters model ↔
      ∃ mm, mm ∈ model.modules ∧ trainable mm = true ∧ p ∈ mm.ownParams)
  ∧ ((∀ m1 m2 : NNModule, m1 ∈ model.modules → m2 ∈ model.modules →
        ∀ p : Param, p ∈ m1.ownParams → p ∈ m2.ownParams → m1 = m2) →
      ∀ mm, mm ∈ model.modules → trainable mm = false →
        ∀ p ∈ mm.ownParams, p ∉ parameters model) := by
  have hchar : ∀ p : Param, p ∈ parameters model ↔
      ∃ mm, mm ∈ model.modules ∧ trainable mm = true ∧ p ∈ mm.ownParams := by
    intro p
    simp only [parameters, List.mem_flatMap, List.mem_filter]
    constructor
    · rintro ⟨mm, ⟨hm, ht⟩, hp⟩
      exact ⟨mm, hm, ht, hp⟩
    · rintro ⟨mm, hm, ht, hp⟩
      exact ⟨mm, ⟨hm, ht⟩, hp⟩
  refine ⟨?_, ?_, hchar, ?_⟩
  · rw [parameters, modules_eq_modulesAux, flatMap_filter_eq_flatMap_ite,
      flatMap_trainable_eq_dfs]
  · intro mm
    cases mm with
    | node k b p bi cs => cases k <;> simp [trainable, NNModule.kind]
  · intro huniq mm hmm htr p hp hpin
    obtain ⟨mm', hm', ht', hp'⟩ := (hchar p).mp hpin
    have heq : mm = mm' := huniq mm mm' hmm hm' p hp hp'
    rw [← heq] at ht'
    rw [htr] at ht'
    exact Bool.false_ne_true ht'

/-- C4 witness: the Identity layer's parameter is not yielded by
`parameters` on a model where tensor ownership is disjoint. -/
theorem C4_witness :
    (⟨7⟩ : Param) ∈ idLayer.ownParams ∧ (⟨7⟩ : Param) ∉ parameters idLinModel := by
  have hmods : idLinModel.modules = [idLinModel, idLayer, linLayer] := by
    rw [modules_eq_modulesAux]
    rfl
  have huniq : ∀ m1 m2 : NNModule, m1 ∈ idLinModel.modules → m2 ∈ idLinModel.modules →
      ∀ p : Param, p ∈ m1.ownParams → p ∈ m2.ownParams → m1 = m2 := by
    intro m1 m2 h1 h2 p hp1 hp2
    rw [hmods] at h1 h2
    simp only [List.mem_cons, List.not_mem_nil, or_false] at h1 h2
    rcases h1 with rfl | rfl | rfl <;> rcases h2 with rfl | rfl | rfl <;>
      simp_all [idLinModel, idLayer, linLayer, NNModule.ownParams]
  have hid : idLayer ∈ idLinModel.modules := by
    rw [hmods]
    simp
  exact ⟨by decide,
    (C4_parameters_trainable idLinModel).2.2.2 huniq idLayer hid (by decide) ⟨7⟩ (by decide)⟩
